import Mathlib

/-!
Verification development for the rozenite-remote-logs plugin.

The repository has two agent variants (a remote-relay topology, where the
in-app agent sends log records over a bridge to a panel that persists them,
and a local topology, where the agent itself appends to a file through a
promise-chained write queue) plus the panel component.  The definitions
below are shallow embeddings of the source functions, keeping their names
where Lean allows it.
-/

namespace RemoteLogs

/-- The five console methods patched by the shim. -/
inductive ConsoleMethod where
  | log
  | warn
  | error
  | info
  | debug
deriving DecidableEq, Repr

/-- The method name, as the string the source uses for the record level. -/
def methodName : ConsoleMethod → String
  | .log => "log"
  | .warn => "warn"
  | .error => "error"
  | .info => "info"
  | .debug => "debug"

/-- Model of a JavaScript value as the serializer observes it: `undefined`,
`null`, a value of object type (carrying the result of JSON.stringify when it
succeeds, `none` when stringify throws, plus its default string coercion), or
any other value via its default string coercion. -/
inductive JSVal where
  | undef
  | jsNull
  | obj (stringifyResult : Option String) (coerce : String)
  | prim (coerce : String)
deriving DecidableEq, Repr

/-- Per-argument policy of serializeArgs, with the try/catch around
JSON.stringify collapsed to a total function. -/
def serializeArg : JSVal → String
  | .undef => "undefined"
  | .jsNull => "null"
  | .obj (some j) _ => j
  | .obj none c => c
  | .prim c => c

/-- serializeArgs from the source: map the per-argument policy over the
argument list and join with a single space. -/
def serializeArgs (args : List JSVal) : String :=
  String.intercalate " " (args.map serializeArg)

/-- JSON.stringify as the source calls it on an object-typed value: returns
the encoding, or throws (modelled as Except.error) on a non-encodable value. -/
def jsonStringifyE (stringifyResult : Option String) : Except String String :=
  match stringifyResult with
  | some j => Except.ok j
  | none => Except.error "TypeError: Converting circular structure to JSON"

/-- One arm of the map inside serializeArgs, in the exception monad: the
try/catch around JSON.stringify is the explicit tryCatch, falling back to the
default string coercion. -/
def serializeArgE : JSVal → Except String String
  | .undef => pure "undefined"
  | .jsNull => pure "null"
  | .obj j c => tryCatch (jsonStringifyE j) (fun _ => pure c)
  | .prim c => pure c

/-- The map step of serializeArgs in the exception monad: an uncaught
exception in any arm would propagate. -/
def serializeListE : List JSVal → Except String (List String)
  | [] => pure []
  | v :: rest => do
    let s ← serializeArgE v
    let r ← serializeListE rest
    pure (s :: r)

/-- serializeArgs in the exception monad: map each argument then join with a
single space; any uncaught exception would surface as Except.error. -/
def serializeArgsE (args : List JSVal) : Except String String := do
  let parts ← serializeListE args
  pure (String.intercalate " " parts)

theorem serializeArgE_ok (v : JSVal) : serializeArgE v = Except.ok (serializeArg v) := by
  cases v with
  | undef => rfl
  | jsNull => rfl
  | obj j c => cases j <;> rfl
  | prim c => rfl

theorem serializeListE_ok (args : List JSVal) :
    serializeListE args = Except.ok (args.map serializeArg) := by
  induction args with
  | nil => rfl
  | cons v rest ih =>
      simp [serializeListE, serializeArgE_ok, ih, List.map_cons]
      rfl

/-- Claim C8: serializeArgs is total and deterministic: for every argument
list it returns a single string without throwing, mapping undefined to
"undefined", null to "null", object-typed values to their JSON encoding with
fallback to default string coercion when the encoding throws, and every other
value to default string coercion, joined with a single space. -/
theorem C8_serializeArgs_total_deterministic :
    (∀ args : List JSVal,
        serializeArgsE args = Except.ok (String.intercalate " " (args.map serializeArg))) ∧
    serializeArg JSVal.undef = "undefined" ∧
    serializeArg JSVal.jsNull = "null" ∧
    (∀ j c, serializeArg (JSVal.obj (some j) c) = j) ∧
    (∀ c, serializeArg (JSVal.obj none c) = c) ∧
    (∀ c, serializeArg (JSVal.prim c) = c) ∧
    serializeArgs [JSVal.undef, JSVal.jsNull, JSVal.prim "x"] = "undefined null x" := by
  refine ⟨?_, rfl, rfl, fun j c => rfl, fun c => rfl, fun c => rfl, by decide⟩
  intro args
  simp [serializeArgsE, serializeListE_ok]

/-- A console-slot value: either an original runtime console function for a
method, or a wrapper installed by patchConsole, recording the function it
forwards to. -/
inductive Fn where
  | orig : ConsoleMethod → Fn
  | wrapper : ConsoleMethod → Fn → Fn
deriving DecidableEq, Repr

/-- The five mutable console-method slots (the global console object as the
shim sees it). -/
structure ConsoleSlots where
  log : Fn
  warn : Fn
  error : Fn
  info : Fn
  debug : Fn
deriving DecidableEq, Repr

/-- The pristine global console at module initialization time, before any
patching. -/
def consoleInit : ConsoleSlots :=
  ⟨Fn.orig .log, Fn.orig .warn, Fn.orig .error, Fn.orig .info, Fn.orig .debug⟩

/-- originalConsole from the source: the console methods captured once, at
module initialization, from the then-pristine console. -/
def originalConsole : ConsoleMethod → Fn
  | .log => consoleInit.log
  | .warn => consoleInit.warn
  | .error => consoleInit.error
  | .info => consoleInit.info
  | .debug => consoleInit.debug

/-- Read one slot of the console object. -/
def getSlot (c : ConsoleSlots) : ConsoleMethod → Fn
  | .log => c.log
  | .warn => c.warn
  | .error => c.error
  | .info => c.info
  | .debug => c.debug

/-- patchConsole from the source: overwrite each of the five slots with a
wrapper that forwards to the module-level captured original (not to whatever
currently sits in the slot). -/
def patchConsole (_c : ConsoleSlots) : ConsoleSlots :=
  { log := Fn.wrapper .log (originalConsole .log)
    warn := Fn.wrapper .warn (originalConsole .warn)
    error := Fn.wrapper .error (originalConsole .error)
    info := Fn.wrapper .info (originalConsole .info)
    debug := Fn.wrapper .debug (originalConsole .debug) }

/-- restoreConsole from the source: write the module-level captured originals
back into every slot. -/
def restoreConsole (_c : ConsoleSlots) : ConsoleSlots :=
  { log := originalConsole .log
    warn := originalConsole .warn
    error := originalConsole .error
    info := originalConsole .info
    debug := originalConsole .debug }

/-- Iterated patchConsole. -/
def patchN : Nat → ConsoleSlots → ConsoleSlots
  | 0, c => c
  | k + 1, c => patchConsole (patchN k c)

/-- A slot is stacking-free when it is an original or a wrapper forwarding
directly to an original (no wrapper calling another wrapper). -/
def stackFree : Fn → Bool
  | .orig _ => true
  | .wrapper _ (.orig _) => true
  | .wrapper _ (.wrapper _ _) => false

/-- Claim C9: patch/restore is a stacking-free round trip: any number of
patchConsole calls followed by one restoreConsole leaves every slot equal to
the function captured at module initialization; after any number of patches
every slot is stacking-free, each installed wrapper forwards to the original
captured at module initialization, and restore from any console state writes
the once-captured originals (never a previously installed wrapper). -/
theorem C9_patch_restore_roundtrip :
    (∀ k, restoreConsole (patchN k consoleInit) = consoleInit) ∧
    (∀ k m, getSlot (patchN (k + 1) consoleInit) m = Fn.wrapper m (Fn.orig m)) ∧
    (∀ k m, stackFree (getSlot (patchN k consoleInit) m) = true) ∧
    (∀ c, patchConsole (patchConsole c) = patchConsole c) ∧
    (∀ c m, getSlot (restoreConsole c) m = Fn.orig m) := by
  refine ⟨fun k => rfl, fun k m => ?_, fun k m => ?_, fun c => rfl, fun c m => ?_⟩
  · show getSlot (patchConsole (patchN k consoleInit)) m = Fn.wrapper m (Fn.orig m)
    cases m <;> rfl
  · cases k with
    | zero => cases m <;> rfl
    | succ k => cases m <;> rfl
  · cases m <;> rfl

/-- One invocation of a wrapper installed by patchConsole.  The first
component is the invocation passed through to the captured original (always,
before the enabled check); the second is the record handed to the sink
(bridge send or file write), present only when the session is enabled and the
sink (client or file path) is present. -/
def consoleWrapperCall (isEnabled sinkPresent : Bool) (m : ConsoleMethod)
    (args : List JSVal) : (ConsoleMethod × List JSVal) × Option (String × String) :=
  ((m, args),
    if isEnabled && sinkPresent then some (methodName m, serializeArgs args) else none)

/-- Run a sequence of console calls through the wrappers, collecting the
sequence of argument lists passed to the captured originals and the sequence
of records handed to the sink. -/
def runConsole (isEnabled sinkPresent : Bool) :
    List (ConsoleMethod × List JSVal) →
      List (ConsoleMethod × List JSVal) × List (String × String)
  | [] => ([], [])
  | c :: rest =>
    let step := consoleWrapperCall isEnabled sinkPresent c.1 c.2
    let r := runConsole isEnabled sinkPresent rest
    (step.1 :: r.1, match step.2 with | some e => e :: r.2 | none => r.2)

/-- Claim C2: transparency: for every sequence of console calls, the sequence
of argument lists passed through to the originally-captured console functions
is identical whether the session is enabled or disabled (indeed it is the
call sequence itself): the wrapper invokes the original unconditionally,
before and regardless of the enabled check. -/
theorem C2_wrapper_transparency :
    ∀ (calls : List (ConsoleMethod × List JSVal)) (e1 s1 e2 s2 : Bool),
      (runConsole e1 s1 calls).1 = (runConsole e2 s2 calls).1 ∧
      (runConsole e1 s1 calls).1 = calls := by
  intro calls
  have h : ∀ e s, (runConsole e s calls).1 = calls := by
    intro e s
    induction calls with
    | nil => rfl
    | cons c rest ih => simp [runConsole, consoleWrapperCall, ih]
  intro e1 s1 e2 s2
  exact ⟨(h e1 s1).trans (h e2 s2).symm, h e1 s1⟩

/-- The three asynchronous steps of one queued persistence operation in the
local topology: existence check, read of the existing content, write of the
full content. -/
inductive Step where
  | getInfo
  | read
  | write
deriving DecidableEq, Repr

/-- One queued persistence operation: the serialized message to append,
which step (if any) of the underlying file-system calls rejects, and the
messages submitted re-entrantly from within this operation's failure
handler. -/
structure Op where
  msg : String
  failStep : Option Step
  onFail : List String
deriving DecidableEq, Repr

/-- A plain successful write operation. -/
def mkOp (m : String) : Op := ⟨m, none, []⟩

/-- One successful persistence operation of appendToFile: existence check,
then either write the new line as the full content (file absent) or read the
existing content, concatenate the new line, and write the whole content
back. -/
def appendLine : Option String → String → Option String
  | none, m => some (m ++ "\n")
  | some existing, m => some (existing ++ (m ++ "\n"))

/-- The console error report emitted by the catch block of appendToFile. -/
def failMsg : String := "[remote-logs] Failed to write to file:"

/-- Measure for the queue recursion: an operation plus its potential
re-entrant submissions. -/
def opSize (op : Op) : Nat := 1 + op.onFail.length

theorem sum_opSize_comp (l : List String) : (l.map (opSize ∘ mkOp)).sum = l.length := by
  induction l with
  | nil => rfl
  | cons m rest ih =>
      simp only [List.map_cons, List.sum_cons]
      rw [ih]
      simp only [Function.comp, opSize, mkOp, List.length_nil, List.length_cons]
      omega

/-- Drain the write queue: run the head operation to completion, then the
rest.  A failing operation leaves the destination unchanged; the operations
its failure handler submitted re-entrantly chain onto the current tail, i.e.
after every already-pending operation. -/
def runFS : List Op → Option String → Option String
  | [], fs => fs
  | op :: rest, fs =>
    match op.failStep with
    | some _ => runFS (rest ++ op.onFail.map mkOp) fs
    | none => runFS rest (appendLine fs op.msg)
termination_by qs _ => (qs.map opSize).sum
decreasing_by
  all_goals simp_wf
  all_goals simp [opSize, sum_opSize_comp]
  all_goals omega

theorem runFS_nil (fs : Option String) : runFS [] fs = fs := by
  rw [runFS]

theorem runFS_cons_ok (op : Op) (rest : List Op) (fs : Option String)
    (h : op.failStep = none) :
    runFS (op :: rest) fs = runFS rest (appendLine fs op.msg) := by
  rw [runFS, h]

theorem runFS_cons_fail (op : Op) (rest : List Op) (fs : Option String) (s : Step)
    (h : op.failStep = some s) :
    runFS (op :: rest) fs = runFS (rest ++ op.onFail.map mkOp) fs := by
  rw [runFS, h]

/-- The reports the queue emits while draining, each to the target the catch
block calls: the originally-captured console error function. -/
def runReports : List Op → List (Fn × String)
  | [] => []
  | op :: rest =>
    match op.failStep with
    | some _ =>
        (originalConsole ConsoleMethod.error, failMsg) ::
          runReports (rest ++ op.onFail.map mkOp)
    | none => runReports rest
termination_by qs => (qs.map opSize).sum
decreasing_by
  all_goals simp_wf
  all_goals simp [opSize, sum_opSize_comp]
  all_goals omega

theorem runReports_nil : runReports [] = [] := by
  rw [runReports]

theorem runReports_cons_ok (op : Op) (rest : List Op) (h : op.failStep = none) :
    runReports (op :: rest) = runReports rest := by
  rw [runReports, h]

theorem runReports_cons_fail (op : Op) (rest : List Op) (s : Step)
    (h : op.failStep = some s) :
    runReports (op :: rest) =
      (originalConsole ConsoleMethod.error, failMsg) ::
        runReports (rest ++ op.onFail.map mkOp) := by
  rw [runReports, h]

/-- Small-step view of the promise tail: the operation currently in flight
(if any), the pending operations in submission order, the destination
content, and the reports emitted so far. -/
structure QMachine where
  inFlight : List Op
  pending : List Op
  fs : Option String
  reports : List (Fn × String)
deriving DecidableEq, Repr

/-- Initial machine state: nothing in flight, the submitted operations
pending in order. -/
def QMachine.start (qs : List Op) (fs : Option String) : QMachine :=
  ⟨[], qs, fs, []⟩

/-- One scheduler step: finish the in-flight operation (a failing one leaves
the content unchanged, reports, and chains its re-entrant submissions onto
the tail), or begin the next pending operation. -/
def qstep (s : QMachine) : QMachine :=
  match s.inFlight with
  | op :: _ =>
    match op.failStep with
    | some _ =>
        ⟨[], s.pending ++ op.onFail.map mkOp, s.fs,
          s.reports ++ [(originalConsole ConsoleMethod.error, failMsg)]⟩
    | none => ⟨[], s.pending, appendLine s.fs op.msg, s.reports⟩
  | [] =>
    match s.pending with
    | op :: rest => ⟨[op], rest, s.fs, s.reports⟩
    | [] => s

/-- The destination content obtained by appending each message, in order,
each followed by a newline. -/
def linesJoined : List String → String
  | [] => ""
  | m :: rest => (m ++ "\n") ++ linesJoined rest

theorem qstep_inFlight_le_one (s : QMachine) : (qstep s).inFlight.length ≤ 1 := by
  cases hf : s.inFlight with
  | cons op tl => cases hof : op.failStep <;> simp [qstep, hf, hof]
  | nil =>
      cases hp : s.pending with
      | cons op rest => simp [qstep, hf, hp]
      | nil => simp [qstep, hf, hp]

theorem qmachine_inFlight_invariant (n : Nat) (qs : List Op) (fs : Option String) :
    ((qstep^[n]) (QMachine.start qs fs)).inFlight.length ≤ 1 := by
  cases n with
  | zero => simp [QMachine.start]
  | succ n =>
      rw [Function.iterate_succ_apply']
      exact qstep_inFlight_le_one _

theorem qmachine_run_all_ok (msgs : List String) (c : String) :
    (qstep^[2 * msgs.length]) (QMachine.start (msgs.map mkOp) (some c)) =
      ⟨[], [], some (c ++ linesJoined msgs), []⟩ := by
  induction msgs generalizing c with
  | nil => simp [QMachine.start, linesJoined]
  | cons m rest ih =>
      have h2 : 2 * (m :: rest).length = 2 * rest.length + 2 := by
        simp [List.length_cons]
        ring
      rw [h2, Function.iterate_add_apply]
      have hstep : (qstep^[2]) (QMachine.start ((m :: rest).map mkOp) (some c)) =
          QMachine.start (rest.map mkOp) (some (c ++ (m ++ "\n"))) := rfl
      rw [hstep, ih]
      simp [linesJoined, String.append_assoc]

theorem runFS_all_ok (msgs : List String) (c : String) :
    runFS (msgs.map mkOp) (some c) = some (c ++ linesJoined msgs) := by
  induction msgs generalizing c with
  | nil => rw [List.map_nil, runFS_nil]; simp [linesJoined]
  | cons m rest ih =>
      simp only [List.map_cons]
      rw [runFS_cons_ok _ _ _ rfl]
      rw [show appendLine (some c) (mkOp m).msg = some (c ++ (m ++ "\n")) from rfl, ih]
      simp [linesJoined, String.append_assoc]

theorem runFS_all_ok_none (m : String) (rest : List String) :
    runFS ((m :: rest).map mkOp) none = some ((m ++ "\n") ++ linesJoined rest) := by
  simp only [List.map_cons]
  rw [runFS_cons_ok _ _ _ rfl]
  rw [show appendLine none (mkOp m).msg = some (m ++ "\n") from rfl]
  exact runFS_all_ok rest (m ++ "\n")

/-- Claim C1: the write queue serializes: starting from an idle queue, at
most one operation is ever in flight; draining N successfully submitted
operations leaves the destination holding the lines in exactly submission
order; and an operation submitted re-entrantly from within an earlier
operation's failure handler lands after every operation that was already
pending, i.e. still in submission order. -/
theorem C1_write_queue_fifo_serialization :
    (∀ (n : Nat) (qs : List Op) (fs : Option String),
        ((qstep^[n]) (QMachine.start qs fs)).inFlight.length ≤ 1) ∧
    (∀ (msgs : List String) (c : String),
        (qstep^[2 * msgs.length]) (QMachine.start (msgs.map mkOp) (some c)) =
          ⟨[], [], some (c ++ linesJoined msgs), []⟩) ∧
    (∀ a b c : String,
        runFS [⟨a, some Step.write, [c]⟩, mkOp b] none =
          some ((b ++ "\n") ++ (c ++ "\n"))) := by
  refine ⟨qmachine_inFlight_invariant, qmachine_run_all_ok, fun a b c => ?_⟩
  rw [runFS_cons_fail _ _ _ Step.write rfl]
  simpa [linesJoined] using runFS_all_ok_none b [c]

/-- Claim C3: each persistence operation follows the read-modify-write
algorithm: if the destination is absent, the new line becomes the full
content; if present, the new line is concatenated after the full existing
content; consequently enqueueing the messages a then b against an initially
absent destination leaves exactly the line a followed by the line b. -/
theorem C3_append_algorithm :
    (∀ m, appendLine none m = some (m ++ "\n")) ∧
    (∀ existing m, appendLine (some existing) m = some (existing ++ (m ++ "\n"))) ∧
    (∀ a b, runFS [mkOp a, mkOp b] none = some ((a ++ "\n") ++ (b ++ "\n"))) ∧
    runFS [mkOp "a", mkOp "b"] none = some "a\nb\n" := by
  refine ⟨fun m => rfl, fun existing m => rfl, fun a b => ?_, ?_⟩
  · simpa [linesJoined] using runFS_all_ok_none a [b]
  · have h : runFS [mkOp "a", mkOp "b"] none =
        some (("a" ++ "\n") ++ linesJoined ["b"]) := runFS_all_ok_none "a" ["b"]
    rw [h]
    decide

/-- Claim C4: a failing operation is isolated: whichever step rejects, the
destination content ends up exactly as if the failed operation had been a
no-op (every subsequently queued operation still executes), and the failure
is reported once, through the originally-captured console error function. -/
theorem C4_failure_isolation :
    ∀ (pre suf : List Op) (op : Op) (fs : Option String),
      (∀ p ∈ pre, p.failStep = none) → op.failStep.isSome = true → op.onFail = [] →
      runFS (pre ++ op :: suf) fs = runFS (pre ++ suf) fs ∧
      runReports (pre ++ [op]) = [(originalConsole ConsoleMethod.error, failMsg)] := by
  intro pre suf op fs hpre hfail hnil
  obtain ⟨s, hs⟩ : ∃ s, op.failStep = some s := Option.isSome_iff_exists.mp hfail
  clear hfail
  revert fs hpre
  induction pre with
  | nil =>
      intro fs _
      constructor
      · simp only [List.nil_append]
        rw [runFS_cons_fail op suf fs s hs, hnil]
        simp
      · simp only [List.nil_append]
        rw [runReports_cons_fail op [] s hs, hnil]
        simp only [List.map_nil, List.nil_append, runReports_nil]
  | cons p pre ih =>
      intro fs hpre
      have hp : p.failStep = none := hpre p (List.mem_cons_self p pre)
      have hpre2 : ∀ q ∈ pre, q.failStep = none :=
        fun q hq => hpre q (List.mem_cons_of_mem p hq)
      constructor
      · simp only [List.cons_append]
        rw [runFS_cons_ok p (pre ++ op :: suf) fs hp,
          runFS_cons_ok p (pre ++ suf) fs hp]
        exact (ih (appendLine fs p.msg) hpre2).1
      · simp only [List.cons_append]
        rw [runReports_cons_ok p (pre ++ [op]) hp]
        exact (ih fs hpre2).2

/-- Concrete instance of C4: the queue a, b(read fails), c lands the same
content as the queue a, c, and the failing middle operation reports once via
the captured original error function. -/
theorem C4_failure_isolation_witness :
    runFS ([mkOp "a"] ++ Op.mk "b" (some Step.read) [] :: [mkOp "c"]) none =
      runFS ([mkOp "a"] ++ [mkOp "c"]) none ∧
    runReports ([mkOp "a"] ++ [Op.mk "b" (some Step.read) []]) =
      [(originalConsole ConsoleMethod.error, failMsg)] :=
  C4_failure_isolation [mkOp "a"] [mkOp "c"] (Op.mk "b" (some Step.read) []) none
    (by decide) (by decide) rfl

/-- A structured log record as the remote topology ships it to the panel. -/
structure LogRecord where
  message : String
  level : String
  timestamp : String
deriving DecidableEq, Repr

/-- Uppercase a string character by character (toUpperCase as the panel
applies it to the level). -/
def strUpper (s : String) : String := String.mk (s.data.map Char.toUpper)

/-- The formatted line appendToLogFile builds on the panel. -/
def logLine (entry : LogRecord) : String :=
  "[" ++ entry.timestamp ++ "] [" ++ strUpper entry.level ++ "] " ++ entry.message ++ "\n"

/-- appendToLogFile from the panel: append the formatted line after the
existing content; appendFileSync creates the file when absent. -/
def appendToLogFile (content : Option String) (entry : LogRecord) : String :=
  (match content with
    | some c => c
    | none => "") ++ logLine entry

/-- Claim C6 counterexample: in the local topology the record with message
hi is persisted as the bare line hi plus newline, which is not of the form
open bracket, ISO timestamp, close bracket, space, bracketed uppercase
level, space, message, newline that the claim requires of both topologies. -/
theorem C6_counterexample :
    runFS [mkOp "hi"] none = some "hi\n" ∧
    "hi\n" ≠ logLine (LogRecord.mk "hi" "log" "2025-01-01T00:00:00.000Z") := by
  constructor
  · have h : runFS [mkOp "hi"] none = some (("hi" ++ "\n") ++ linesJoined []) :=
      runFS_all_ok_none "hi" []
    rw [h]
    decide
  · decide

/-- Claim C6 amended: in the remote topology every record is persisted as
one line, open bracket, timestamp, close bracket, space, open bracket,
uppercased level, close bracket, space, message, newline, appended after all
previously persisted content; in the local topology every record is
persisted as the bare serialized message plus newline, likewise appended
newest last, with no timestamp or level prefix. -/
theorem C6_line_format_amended :
    (∀ (content : String) (entry : LogRecord),
        appendToLogFile (some content) entry =
          content ++
            ("[" ++ entry.timestamp ++ "] [" ++ strUpper entry.level ++ "] " ++
              entry.message ++ "\n")) ∧
    (∀ entry : LogRecord,
        appendToLogFile none entry =
          "[" ++ entry.timestamp ++ "] [" ++ strUpper entry.level ++ "] " ++
            entry.message ++ "\n") ∧
    (∀ (m c : String), runFS [mkOp m] (some c) = some (c ++ (m ++ "\n"))) := by
  refine ⟨fun content entry => rfl, fun entry => ?_, fun m c => ?_⟩
  · show "" ++ logLine entry = logLine entry
    cases hl : logLine entry
    rfl
  · simpa [linesJoined] using runFS_all_ok [m] c

/-- sendLogEntry from the remote topology, in the exception monad: the
bridge send may throw; nothing in sendLogEntry or in the wrapper catches
it.  The sendThrows flag models the behavior of the external client send. -/
def sendLogEntryE (isEnabled clientPresent sendThrows : Bool) : Except String Unit :=
  if !isEnabled || !clientPresent then Except.ok ()
  else if sendThrows then Except.error "bridge send failed" else Except.ok ()

/-- One invocation of a remote-topology console wrapper: the original is
invoked first (first component), then, when enabled with a client present,
the record is submitted through sendLogEntry with no try/catch around it, so
its exception surfaces in the second component. -/
def remoteWrapperInvoke (isEnabled clientPresent sendThrows : Bool) (m : ConsoleMethod)
    (args : List JSVal) : (ConsoleMethod × List JSVal) × Except String Unit :=
  ((m, args),
    if isEnabled && clientPresent then sendLogEntryE isEnabled clientPresent sendThrows
    else Except.ok ())

/-- The error message of the file-system step that rejects. -/
def stepErr : Step → String
  | .getInfo => "getInfoAsync rejected"
  | .read => "readAsStringAsync rejected"
  | .write => "writeAsStringAsync rejected"

/-- The body of one queued operation of appendToFile in the exception
monad: whichever step rejects, the exception surfaces here. -/
def localQueuedOpE (op : Op) (fs : Option String) : Except String (Option String) :=
  match op.failStep with
  | some s => Except.error (stepErr s)
  | none => Except.ok (appendLine fs op.msg)

/-- The catch block of appendToFile around the operation body: on any
exception the destination is left as it was and the originally-captured
console error function receives the report. -/
def localQueuedOpRun (op : Op) (fs : Option String) : Option String × List (Fn × String) :=
  match localQueuedOpE op fs with
  | Except.ok fs2 => (fs2, [])
  | Except.error _ => (fs, [(originalConsole ConsoleMethod.error, failMsg)])

/-- Claim C5 counterexample: in the remote topology, with the session
enabled, a client present and a bridge send that throws, the wrapper
invocation for a console log call surfaces the uncaught exception: the error
propagates out of the wrapped console call, so the claim that it is always
caught fails. -/
theorem C5_counterexample :
    (remoteWrapperInvoke true true true ConsoleMethod.log [JSVal.prim "x"]).2 =
      Except.error "bridge send failed" := by
  rfl

/-- Claim C5 amended: in the local topology every failure of a queued file
write is caught and reported via the originally-captured console error
function (never re-entering a wrapped console method, since the captured
original is the unwrapped function even while the console is patched); in
the remote topology the bridge send is invoked without any try/catch, so a
synchronous throw propagates out of the wrapped console call exactly when
the session is enabled, a client is present and the send throws. -/
theorem C5_downstream_failure_amended :
    (∀ (op : Op) (fs : Option String),
        (op.failStep.isSome = true →
          localQueuedOpRun op fs = (fs, [(Fn.orig ConsoleMethod.error, failMsg)])) ∧
        (op.failStep = none →
          localQueuedOpRun op fs = (appendLine fs op.msg, []))) ∧
    (∀ (e c s : Bool) (m : ConsoleMethod) (args : List JSVal),
        (remoteWrapperInvoke e c s m args).2 = Except.error "bridge send failed" ↔
          e = true ∧ c = true ∧ s = true) ∧
    (∀ cs : ConsoleSlots,
        getSlot (patchConsole cs) ConsoleMethod.error =
          Fn.wrapper ConsoleMethod.error (Fn.orig ConsoleMethod.error)) ∧
    originalConsole ConsoleMethod.error = Fn.orig ConsoleMethod.error := by
  refine ⟨fun op fs => ⟨?_, ?_⟩, fun e c s m args => ?_, fun cs => rfl, rfl⟩
  · intro h
    obtain ⟨s, hs⟩ : ∃ s, op.failStep = some s := Option.isSome_iff_exists.mp h
    simp [localQueuedOpRun, localQueuedOpE, hs]
    rfl
  · intro h
    simp [localQueuedOpRun, localQueuedOpE, h]
  · cases e <;> cases c <;> cases s <;> simp [remoteWrapperInvoke, sendLogEntryE]

/-- Concrete instance of the amended C5: a queued write whose write step
rejects leaves the destination unchanged and reports once through the
captured original error function. -/
theorem C5_downstream_failure_amended_witness :
    localQueuedOpRun (Op.mk "m" (some Step.write) []) none =
      (none, [(Fn.orig ConsoleMethod.error, failMsg)]) :=
  (C5_downstream_failure_amended.1 (Op.mk "m" (some Step.write) []) none).1 rfl

/-- A payload field value carried in a bridge message. -/
inductive PVal where
  | b : Bool → PVal
  | s : String → PVal
deriving DecidableEq, Repr

/-- The agent state the remote-topology hook reads when answering
request-status. -/
structure RemoteAgentState where
  isEnabled : Bool
  currentFilePath : String
deriving DecidableEq, Repr

/-- The status-update message the remote-topology agent pushes: enabled
together with the current file path. -/
def remoteStatusUpdate (st : RemoteAgentState) : String × List (String × PVal) :=
  ("status-update",
    [("enabled", PVal.b st.isEnabled), ("filePath", PVal.s st.currentFilePath)])

/-- The remote-topology request-status handler: pushes exactly one
status-update built from the current state. -/
def remoteRequestStatusHandler (st : RemoteAgentState) :
    List (String × List (String × PVal)) :=
  [remoteStatusUpdate st]

/-- The status-update message the local-topology agent pushes: only the
enabled flag. -/
def localStatusUpdate (isEnabled : Bool) : String × List (String × PVal) :=
  ("status-update", [("enabled", PVal.b isEnabled)])

/-- The local-topology request-status handler: pushes exactly one
status-update carrying only the enabled flag. -/
def localRequestStatusHandler (isEnabled : Bool) :
    List (String × List (String × PVal)) :=
  [localStatusUpdate isEnabled]

/-- The remote-topology mount effect: set the current file path; on first
mount initialize the enabled flag from autoEnable. -/
def remoteMountEffect (filePath : String) (autoEnable initialized : Bool)
    (st : RemoteAgentState) : RemoteAgentState :=
  { currentFilePath := filePath,
    isEnabled := if initialized then st.isEnabled else autoEnable }

/-- Claim C7 counterexample: in the local topology, the single status-update
pushed in response to request-status (here with the session enabled) carries
no destination field at all, so the claim that the response carries both the
enabled flag and the destination in both topologies fails. -/
theorem C7_counterexample :
    (localRequestStatusHandler true).map (fun msg => List.lookup "filePath" msg.2) =
      [none] := by
  decide

/-- Claim C7 amended: on request-status, the remote-topology agent pushes
exactly one status-update carrying both the current enabled flag and the
current file path, and a panel connecting after activation with
autoEnable true and destination ./logs/app.log receives enabled true with
that destination; the local-topology agent pushes exactly one status-update
carrying only the enabled flag and no destination. -/
theorem C7_status_response_amended :
    (∀ st : RemoteAgentState,
        (remoteRequestStatusHandler st).length = 1 ∧
        (remoteRequestStatusHandler st).map Prod.fst = ["status-update"] ∧
        (remoteRequestStatusHandler st).map (fun msg => List.lookup "enabled" msg.2) =
          [some (PVal.b st.isEnabled)] ∧
        (remoteRequestStatusHandler st).map (fun msg => List.lookup "filePath" msg.2) =
          [some (PVal.s st.currentFilePath)]) ∧
    (∀ e : Bool,
        (localRequestStatusHandler e).length = 1 ∧
        (localRequestStatusHandler e).map Prod.fst = ["status-update"] ∧
        (localRequestStatusHandler e).map (fun msg => List.lookup "enabled" msg.2) =
          [some (PVal.b e)] ∧
        (localRequestStatusHandler e).map (fun msg => List.lookup "filePath" msg.2) =
          [none]) ∧
    (∀ st0 : RemoteAgentState,
        remoteRequestStatusHandler (remoteMountEffect "./logs/app.log" true false st0) =
          [("status-update",
            [("enabled", PVal.b true), ("filePath", PVal.s "./logs/app.log")])]) :=
  ⟨fun st => ⟨rfl, rfl, rfl, rfl⟩, fun e => ⟨rfl, rfl, rfl, rfl⟩, fun st0 => rfl⟩

/-- The process-wide mutable state of the local topology: the enabled flag,
the current file path, the pending write queue, and the file system as a map
from path to content. -/
structure LocalAgent where
  isEnabled : Bool
  currentFilePath : Option String
  queue : List String
  files : List (String × String)
deriving DecidableEq, Repr

/-- JavaScript truthiness of the current file path: null and the empty
string are falsy. -/
def pathTruthy : Option String → Bool
  | none => false
  | some p => !(p == "")

/-- The enqueue path of appendToFile: return without queueing unless a
truthy file path is set and the session is enabled; otherwise chain the
message onto the write queue.  Neither flag is re-checked later. -/
def appendToFile (st : LocalAgent) (message : String) : LocalAgent :=
  if !(pathTruthy st.currentFilePath) || !st.isEnabled then st
  else { st with queue := st.queue ++ [message] }

/-- Overwrite one path in the file map. -/
def setFile : List (String × String) → String → String → List (String × String)
  | [], p, c => [(p, c)]
  | (q, d) :: rest, p, c => if q == p then (p, c) :: rest else (q, d) :: setFile rest p c

/-- Change the enabled flag (toggle-enabled, or state cleared). -/
def setEnabled (st : LocalAgent) (e : Bool) : LocalAgent := { st with isEnabled := e }

/-- Change the current file path between enqueue and execution. -/
def setFilePath (st : LocalAgent) (p : Option String) : LocalAgent :=
  { st with currentFilePath := p }

/-- Execute the head pending operation: the closure resolves the
process-wide current file path at this moment, reads the existing content
at that path, and writes the appended content back; the enabled flag is
never consulted here.  With the path cleared to null the operation still
runs (and its file-system call rejects, performing no write). -/
def execOne (st : LocalAgent) : LocalAgent × Option (String × String) :=
  match st.queue with
  | [] => (st, none)
  | msg :: rest =>
    match st.currentFilePath with
    | some p =>
      let newContent :=
        match List.lookup p st.files with
        | some existing => existing ++ (msg ++ "\n")
        | none => msg ++ "\n"
      ({ st with queue := rest, files := setFile st.files p newContent }, some (p, msg))
    | none => ({ st with queue := rest }, none)

/-- Claim C10: the enabled flag and the presence of a destination are
checked only at enqueue time: an enqueue with the session disabled or the
path falsy is dropped; execution of an already-queued operation is
insensitive to the enabled flag at execution time (so disabling after
enqueue neither cancels nor suppresses it); and the operation resolves the
destination from the process-wide current file path at the moment it
executes, so changing the path between enqueue and execution redirects the
pending write to the new path. -/
theorem C10_enqueue_time_checks :
    (∀ (st : LocalAgent) (msg : String),
        st.isEnabled = false → appendToFile st msg = st) ∧
    (∀ (st : LocalAgent) (msg : String),
        pathTruthy st.currentFilePath = false → appendToFile st msg = st) ∧
    (∀ (st : LocalAgent) (e : Bool),
        execOne (setEnabled st e) = (setEnabled (execOne st).1 e, (execOne st).2)) ∧
    (∀ (st : LocalAgent) (msg p2 : String),
        st.isEnabled = true → pathTruthy st.currentFilePath = true → st.queue = [] →
        (execOne (setFilePath (appendToFile st msg) (some p2))).2 = some (p2, msg)) := by
  refine ⟨fun st msg h => ?_, fun st msg h => ?_, fun st e => ?_, fun st msg p2 he hp hq => ?_⟩
  · simp [appendToFile, h]
  · simp [appendToFile, h]
  · cases hq : st.queue with
    | nil => simp [execOne, setEnabled, hq]
    | cons msg rest =>
        cases hpath : st.currentFilePath with
        | none => simp [execOne, setEnabled, hq, hpath]
        | some p => simp [execOne, setEnabled, hq, hpath]
  · simp [appendToFile, he, hp, hq, setFilePath, execOne]

/-- Concrete instance of C10: an enqueue with the session disabled is
dropped, and a pending write enqueued under path p1 but executed after the
path changed to p2 lands at p2. -/
theorem C10_enqueue_time_checks_witness :
    appendToFile (LocalAgent.mk false (some "p1") [] []) "m" =
      LocalAgent.mk false (some "p1") [] [] ∧
    (execOne (setFilePath
        (appendToFile (LocalAgent.mk true (some "p1") [] []) "m") (some "p2"))).2 =
      some ("p2", "m") :=
  ⟨C10_enqueue_time_checks.1 (LocalAgent.mk false (some "p1") [] []) "m" rfl,
    C10_enqueue_time_checks.2.2.2 (LocalAgent.mk true (some "p1") [] []) "m" "p2"
      rfl (by decide) rfl⟩

end RemoteLogs
